import Mathlib

set_option maxRecDepth 100000

set_option maxHeartbeats 2000000

/-!
Verification development for the European Parliament minutes scraper
(`src/scraper.py`).  Strings are modelled as `List Char`; each Python
`re.sub` call is embedded as a leftmost, non-overlapping replace-all pass
driven by a hand-written matcher for the concrete pattern; XML documents
are modelled as a tree datatype and the lxml/XPath queries as traversals;
HTTP and parsing libraries are abstracted as function parameters.
-/

namespace Scraper

/-! ## Character classes (Python `\s`, `\d`, `\w`, `[a-zA-Z]`, `IGNORECASE`) -/

/-- Python `\s` for `str` patterns: ASCII whitespace, the C1 separators
and the Unicode space characters recognised by `str.isspace`. -/
def isWs (c : Char) : Bool :=
  c == ' ' || c == '\t' || c == '\n' || c == '\r' || c == '\x0b' || c == '\x0c' ||
  c == '\x1c' || c == '\x1d' || c == '\x1e' || c == '\x1f' || c == '\x85' || c == '\xa0' ||
  c == '\u1680' || ('\u2000' ≤ c && c ≤ '\u200a') || c == '\u2028' || c == '\u2029' ||
  c == '\u202f' || c == '\u205f' || c == '\u3000'

/-- ASCII letter, the class `[a-zA-Z]`. -/
def isAlpha (c : Char) : Bool :=
  ('a' ≤ c && c ≤ 'z') || ('A' ≤ c && c ≤ 'Z')

/-- ASCII digit, the class `\d` on the scraped ASCII references. -/
def isDigit (c : Char) : Bool :=
  '0' ≤ c && c ≤ '9'

/-- Word characters, the class `\w` on the ASCII tokens the rules target. -/
def isWord (c : Char) : Bool :=
  isAlpha c || isDigit c || c == '_'

/-- ASCII lowercasing, used for `re.IGNORECASE` comparison of the ASCII
phrase literals in the rules. -/
def lowc (c : Char) : Char :=
  if 'A' ≤ c && c ≤ 'Z' then Char.ofNat (c.toNat + 32) else c

/-! ## Generic leftmost replace-all (the semantics of `re.sub`)

A matcher returns the length of the (non-empty) match starting at the head
of the given suffix, or `none`.  `subF` scans left to right, replaces each
match and resumes after it, exactly as `re.sub` does for patterns that
cannot match the empty string. -/

def subF (m : List Char → Option Nat) (repl : List Char) : Nat → List Char → List Char
  | 0, s => s
  | _ + 1, [] => []
  | fuel + 1, c :: rest =>
    match m (c :: rest) with
    | some (n + 1) => repl ++ subF m repl fuel (rest.drop n)
    | _ => c :: subF m repl fuel rest

/-- The pass `re.sub(pattern, repl, s)` for a pattern embedded as matcher `m`. -/
def pysub (m : List Char → Option Nat) (repl : List Char) (s : List Char) : List Char :=
  subF m repl s.length s

/-! ## Python `str.strip()` -/

/-- Drop trailing whitespace. -/
def dropTrailWs : List Char → List Char
  | [] => []
  | c :: rest =>
    let r := dropTrailWs rest
    if r.isEmpty && isWs c then [] else c :: r

/-- Python `str.strip()`: remove leading and trailing whitespace. -/
def pyStrip (s : List Char) : List Char :=
  dropTrailWs (s.dropWhile isWs)

/-! ## Matcher combinators -/

/-- Match a literal (case-sensitively or ASCII-case-insensitively),
returning the remaining suffix. -/
def litPre (ci : Bool) : List Char → List Char → Option (List Char)
  | [], s => some s
  | _ :: _, [] => none
  | p :: ps, c :: cs =>
    if (if ci then lowc c == lowc p else c == p) then litPre ci ps cs else none

/-- Does `pat` occur at the head of `s` (case-sensitively)? -/
def litHere (pat s : List Char) : Bool :=
  (litPre false pat s).isSome

/-- The lazy `.*?LIT` tail: length up to and including the first occurrence
of `pat`, failing on an interposed newline (`.` does not match `'\n'`). -/
def lazyUntilLit (pat : List Char) : List Char → Option Nat
  | [] => none
  | c :: rest =>
    if litHere pat (c :: rest) then some pat.length
    else if c == '\n' then none
    else (lazyUntilLit pat rest).map (· + 1)

/-- First matching alternative (in order), as Python alternation tries them. -/
def firstAlt (ci : Bool) (alts : List (List Char)) (s : List Char) : Option (List Char) :=
  match alts with
  | [] => none
  | a :: rest =>
    match litPre ci a s with
    | some r => some r
    | none => firstAlt ci rest s

/-- Consumed length, given the original suffix and the remaining suffix. -/
def toLen (s : List Char) (r : Option (List Char)) : Option Nat :=
  r.map (fun rem => s.length - rem.length)

/-- Skip `\s*`. -/
def wsDrop (s : List Char) : List Char :=
  s.dropWhile isWs

/-- Take `\d+` (maximal), failing on an empty run; returns the rest. -/
def digitsPlus (s : List Char) : Option (List Char) :=
  let d := s.takeWhile isDigit
  if d.isEmpty then none else some (s.drop d.length)

/-- Take exactly `n` digits (`\d{n}` followed by a non-digit requirement is
enforced by the caller's next literal). -/
def digitsExact (n : Nat) (s : List Char) : Option (List Char) :=
  if (s.take n).length == n && (s.take n).all isDigit then some (s.drop n) else none

/-! ## The 25 rules of `clean_text`, in source order -/

/-- Rule 1: `<[^>]+>`. -/
def mTag (s : List Char) : Option Nat :=
  match s with
  | '<' :: rest =>
    let k := (rest.takeWhile (fun c => c ≠ '>')).length
    if 1 ≤ k && k < rest.length then some (k + 2) else none
  | _ => none

/-- Rule 2 (and the final rule's variant): `\s+`, a maximal whitespace run. -/
def mWs1 (s : List Char) : Option Nat :=
  let n := (s.takeWhile isWs).length
  if n == 0 then none else some n

/-- Final rule: `\s{2,}`, a maximal whitespace run of length at least two. -/
def mWs2 (s : List Char) : Option Nat :=
  let n := (s.takeWhile isWs).length
  if 2 ≤ n then some n else none

/-- Rule 3: `\(The sitting (?:was suspended|opened|closed|ended) at.*?\)`, IGNORECASE. -/
def mSitting (s : List Char) : Option Nat :=
  toLen s <| do
    let r1 ← litPre true "(The sitting ".data s
    let r2 ← firstAlt true ["was suspended".data, "opened".data, "closed".data, "ended".data] r1
    let r3 ← litPre true " at".data r2
    let k ← lazyUntilLit ")".data r3
    pure (r3.drop k)

/-- Rule 4: `\(Voting time ended at.*?\)`, IGNORECASE. -/
def mVoting (s : List Char) : Option Nat :=
  toLen s <| do
    let r1 ← litPre true "(Voting time ended at".data s
    let k ← lazyUntilLit ")".data r1
    pure (r1.drop k)

/-- Rule 5: `\((?:debat|stemming|vraag|interventie)\)`, IGNORECASE. -/
def mParenTag (s : List Char) : Option Nat :=
  toLen s <| do
    let r1 ← litPre true "(".data s
    let r2 ← firstAlt true ["debat".data, "stemming".data, "vraag".data, "interventie".data] r1
    litPre true ")".data r2

/-- Rule 6: `\(Het woord wordt gevoerd door:.*?\)`, IGNORECASE. -/
def mWoordDoor (s : List Char) : Option Nat :=
  toLen s <| do
    let r1 ← litPre true "(Het woord wordt gevoerd door:".data s
    let k ← lazyUntilLit ")".data r1
    pure (r1.drop k)

/-- Rule 7 tail: `\s*(?:\s+\w+)?\s*(\)|\])`. -/
def artTail (s : List Char) : Option (List Char) :=
  let w := (s.takeWhile isWs).length
  let t := s.drop w
  match t with
  | c :: rest =>
    if c == ')' || c == ']' then some rest
    else if 1 ≤ w then
      let wd := (t.takeWhile isWord).length
      if wd == 0 then none
      else
        match wsDrop (t.drop wd) with
        | c2 :: r2 => if c2 == ')' || c2 == ']' then some r2 else none
        | [] => none
    else none
  | [] => none

/-- Rule 7, after the keyword: `\s*\d+(?:,\s*lid\s*\d+)?` then the tail. -/
def artAfterKw (s : List Char) : Option (List Char) :=
  match digitsPlus (wsDrop s) with
  | none => none
  | some r2 =>
    let r4 :=
      match r2 with
      | ',' :: rr =>
        (match litPre true "lid".data (wsDrop rr) with
         | some rr2 => (digitsPlus (wsDrop rr2)).getD r2
         | none => r2)
      | _ => r2
    artTail r4

/-- Rule 7, keyword on: `(?:artikel|rule|punt|item)` (IGNORECASE) then the rest. -/
def artKw (s : List Char) : Option (List Char) :=
  match firstAlt true ["artikel".data, "rule".data, "punt".data, "item".data] s with
  | some r => artAfterKw r
  | none => none

/-- Rule 7, optional `[a-zA-Z]{2,3}` group: exactly `k` ASCII letters, then
whitespace, then the keyword part. -/
def artLetters (k : Nat) (s : List Char) : Option (List Char) :=
  if (s.take k).length == k && (s.take k).all isAlpha then artKw (wsDrop (s.drop k))
  else none

/-- Rule 7:
`(\(|\[)\s*(?:(?:[a-zA-Z]{2,3})\s*(?:|\s|))?\s*(?:artikel|rule|punt|item)\s*\d+(?:,\s*lid\s*\d+)?\s*(?:\s+\w+)?\s*(\)|\])`,
IGNORECASE.  Backtracking order: three letters, two letters, no letter group. -/
def mArtRef (s : List Char) : Option Nat :=
  match s with
  | b :: r0 =>
    if b == '(' || b == '[' then
      let r1 := wsDrop r0
      toLen s <|
        match artLetters 3 r1 with
        | some r => some r
        | none =>
          match artLetters 2 r1 with
          | some r => some r
          | none => artKw r1
    else none
  | [] => none

/-- Rule 8: `\[(COM|A)\d+-\d+(/\d+)?\]`, case-sensitive. -/
def mCom (s : List Char) : Option Nat :=
  toLen s <| do
    let r0 ← litPre false "[".data s
    let r1 ← firstAlt false ["COM".data, "A".data] r0
    let r2 ← digitsPlus r1
    let r3 ← litPre false "-".data r2
    let r4 ← digitsPlus r3
    let r5 :=
      match r4 with
      | '/' :: rr => (digitsPlus rr).getD r4
      | _ => r4
    litPre false "]".data r5

/-- Rule 9 core: `[^\s]+?\)` — at least one non-whitespace character, lazily,
then the closing parenthesis. -/
def lazyNonWs : List Char → Option Nat
  | a :: b :: rest =>
    if isWs a then none
    else if b == ')' then some 2
    else (lazyNonWs (b :: rest)).map (· + 1)
  | _ => none

/-- Rule 9: `\(?(?:http|https):\/\/[^\s]+?\)`. -/
def mUrl (s : List Char) : Option Nat :=
  let core : List Char → Option (List Char) := fun t => do
    let r1 ← litPre false "http".data t
    let r2 ←
      match litPre false "://".data r1 with
      | some r => some r
      | none => litPre false "s://".data r1
    let k ← lazyNonWs r2
    pure (r2.drop k)
  toLen s <|
    match s with
    | '(' :: r0 =>
      (match core r0 with
       | some r => some r
       | none => core s)
    | _ => core s

/-- Rules 10 to 14: `\[\s*\d{4}/\d{4}\(CODE\)\]` for a fixed procedure code,
case-sensitive. -/
def mProcCode (code : List Char) (s : List Char) : Option Nat :=
  toLen s <| do
    let r0 ← litPre false "[".data s
    let r1 := wsDrop r0
    let r2 ← digitsExact 4 r1
    let r3 ← litPre false "/".data r2
    let r4 ← digitsExact 4 r3
    let r5 ← litPre false ("(".data ++ code ++ ")]".data) r4
    pure r5

/-- Rule 15: `\[\s*\d{5}/\d{4}\s*-\s*C\d+-\d+/\d+\s*-\s*\d{4}/\d{4}\(NLE\)\]`. -/
def mNleLong (s : List Char) : Option Nat :=
  toLen s <| do
    let r0 ← litPre false "[".data s
    let r1 ← digitsExact 5 (wsDrop r0)
    let r2 ← litPre false "/".data r1
    let r3 ← digitsExact 4 r2
    let r4 ← litPre false "-".data (wsDrop r3)
    let r5 ← litPre false "C".data (wsDrop r4)
    let r6 ← digitsPlus r5
    let r7 ← litPre false "-".data r6
    let r8 ← digitsPlus r7
    let r9 ← litPre false "/".data r8
    let r10 ← digitsPlus r9
    let r11 ← litPre false "-".data (wsDrop r10)
    let r12 ← digitsExact 4 (wsDrop r11)
    let r13 ← litPre false "/".data r12
    let r14 ← digitsExact 4 r13
    litPre false "(NLE)]".data r14

/-- Rule 16: `\(“Stemmingsuitslagen”, punt \d+\)`, case-sensitive. -/
def mStemUit (s : List Char) : Option Nat :=
  toLen s <| do
    let r1 ← litPre false "(\u201cStemmingsuitslagen\u201d, punt ".data s
    let r2 ← digitsPlus r1
    litPre false ")".data r2

/-- Rule 17: `\(de Voorzitter(?: maakt na de toespraak van.*?| weigert in te
gaan op.*?| stemt toe| herinnert eraan dat de gedragsregels moeten worden
nageleefd| neemt er akte van|)\)`, case-sensitive, alternatives in order. -/
def mVoorzitter (s : List Char) : Option Nat :=
  toLen s <| do
    let r1 ← litPre false "(de Voorzitter".data s
    let lazyAlt : List Char → Option (List Char) := fun pre =>
      match litPre false pre r1 with
      | some r2 => (lazyUntilLit ")".data r2).map (fun k => r2.drop k)
      | none => none
    let litAlt : List Char → Option (List Char) := fun pre =>
      match litPre false (pre ++ ")".data) r1 with
      | some r2 => some r2
      | none => none
    match lazyAlt " maakt na de toespraak van".data with
    | some r => some r
    | none =>
    match lazyAlt " weigert in te gaan op".data with
    | some r => some r
    | none =>
    match litAlt " stemt toe".data with
    | some r => some r
    | none =>
    match litAlt " herinnert eraan dat de gedragsregels moeten worden nageleefd".data with
    | some r => some r
    | none =>
    match litAlt " neemt er akte van".data with
    | some r => some r
    | none => litPre false ")".data r1

/-- Rule 18: `\(zie bijlage.*?\)`, IGNORECASE. -/
def mBijlage (s : List Char) : Option Nat :=
  toLen s <| do
    let r1 ← litPre true "(zie bijlage".data s
    let k ← lazyUntilLit ")".data r1
    pure (r1.drop k)

/-- Rules 19 and 20: `\(\s*De vergadering wordt om.*?geschorst\.\)` and the
`hervat` variant, case-sensitive. -/
def mVergaderingPar (stop : List Char) (s : List Char) : Option Nat :=
  toLen s <| do
    let r0 ← litPre false "(".data s
    let r1 ← litPre false "De vergadering wordt om".data (wsDrop r0)
    let k ← lazyUntilLit stop r1
    pure (r1.drop k)

/-- Rule 21: `Volgens de “catch the eye”-procedure wordt het woord gevoerd
door.*?\.`, case-sensitive. -/
def mCatchEye (s : List Char) : Option Nat :=
  toLen s <| do
    let r1 ← litPre false "Volgens de \u201ccatch the eye\u201d-procedure wordt het woord gevoerd door".data s
    let k ← lazyUntilLit ".".data r1
    pure (r1.drop k)

/-- Rule 22: `Het woord wordt gevoerd door .*?\.`, case-sensitive. -/
def mHetWoord (s : List Char) : Option Nat :=
  toLen s <| do
    let r1 ← litPre false "Het woord wordt gevoerd door ".data s
    let k ← lazyUntilLit ".".data r1
    pure (r1.drop k)

/-- Rules 23 and 24: `De vergadering wordt om \d{1,2}\.\d{2} uur gesloten.`
(and `geopend.`): note the final unescaped dot, which matches any
non-newline character. -/
def mVergaderingTijd (word : List Char) (s : List Char) : Option Nat :=
  toLen s <| do
    let r1 ← litPre false "De vergadering wordt om ".data s
    let r2 ←
      match r1 with
      | a :: b :: '.' :: rr => if isDigit a && isDigit b then some rr else none
      | a :: '.' :: rr => if isDigit a then some rr else none
      | _ => none
    let r3 ← digitsExact 2 r2
    let r4 ← litPre false (" uur ".data ++ word) r3
    match r4 with
    | c :: rr => if c ≠ '\n' then some rr else none
    | [] => none

/-- Rule 25: `Het debat wordt gesloten.` with an unescaped trailing dot. -/
def mDebatGesloten (s : List Char) : Option Nat :=
  toLen s <| do
    let r1 ← litPre false "Het debat wordt gesloten".data s
    match r1 with
    | c :: rr => if c ≠ '\n' then some rr else none
    | [] => none

/-- Rule 26: `Stemming:.*?\.`, case-sensitive. -/
def mStemmingZin (s : List Char) : Option Nat :=
  toLen s <| do
    let r1 ← litPre false "Stemming:".data s
    let k ← lazyUntilLit ".".data r1
    pure (r1.drop k)

/-- The pure-deletion rules of `clean_text` (source lines 50 to 73), in
source order: each is a `re.sub(pattern, "", ...)` pass. -/
def deletionRules : List (List Char → Option Nat) :=
  [mSitting, mVoting, mParenTag, mWoordDoor, mArtRef, mCom, mUrl,
   mProcCode "COD".data, mProcCode "INI".data, mProcCode "RSP".data,
   mProcCode "IMM".data, mProcCode "NLE".data, mNleLong, mStemUit,
   mVoorzitter, mBijlage, mVergaderingPar "geschorst.)".data,
   mVergaderingPar "hervat.)".data, mCatchEye, mHetWoord,
   mVergaderingTijd "gesloten".data, mVergaderingTijd "geopend".data,
   mDebatGesloten, mStemmingZin]

/-- Apply the deletion passes left to right. -/
def applyDeletions (s : List Char) : List Char :=
  deletionRules.foldl (fun t m => pysub m [] t) s

/-- The function `clean_text` from `src/scraper.py`: strip markup tags, collapse
whitespace and trim, apply the deletion passes in source order, then
re-collapse double whitespace and trim. -/
def clean_text (s : List Char) : List Char :=
  pyStrip (pysub mWs2 [' ']
    (applyDeletions (pyStrip (pysub mWs1 [' '] (pysub mTag [] s)))))

/-! ## XML / HTML document model

An `XNode` is a text node or an element with a tag (namespace-prefixed
names such as `text:p` are kept literal), attributes and children — the
tree shape shared by lxml `etree` and BeautifulSoup documents. -/

inductive XNode where
  | text (s : List Char)
  | elem (tag : String) (attrs : List (String × String)) (children : List XNode)

mutual

/-- All nodes of the subtree in document (preorder) order, each paired with
the tags of its strict ancestors (innermost first). -/
def nodesAnc : XNode → List String → List (XNode × List String)
  | XNode.text s, anc => [(XNode.text s, anc)]
  | XNode.elem t a cs, anc => (XNode.elem t a cs, anc) :: nodesAncList cs (t :: anc)

/-- The traversal `nodesAnc` over a list of sibling subtrees. -/
def nodesAncList : List XNode → List String → List (XNode × List String)
  | [], _ => []
  | c :: cs, anc => nodesAnc c anc ++ nodesAncList cs anc

end

/-- Contents of all text-node descendants, in document order. -/
def textNodes (n : XNode) : List (List Char) :=
  (nodesAnc n []).filterMap (fun e =>
    match e.1 with
    | XNode.text s => some s
    | _ => none)

/-- XPath `string()`: concatenation of all text descendants in document order. -/
def stringOf (n : XNode) : List Char :=
  (textNodes n).flatten

/-- Direct children of a node. -/
def XNode.children : XNode → List XNode
  | XNode.text _ => []
  | XNode.elem _ _ cs => cs

/-- Is this an element with the given tag? -/
def XNode.isElemTag (tag : String) : XNode → Bool
  | XNode.elem t _ _ => t == tag
  | XNode.text _ => false

/-- Attributes of a node (text nodes have none). -/
def XNode.attrsOf : XNode → List (String × String)
  | XNode.elem _ a _ => a
  | XNode.text _ => []

/-- XPath `./TAG` as a node test: the direct children with the given tag. -/
def childrenTag (tag : String) (n : XNode) : List XNode :=
  n.children.filter (XNode.isElemTag tag)

/-- XPath `string(./TAG)`: string value of the first matching child, or
empty when there is none. -/
def childString (tag : String) (n : XNode) : List Char :=
  match (childrenTag tag n).head? with
  | some m => stringOf m
  | none => []

/-- Does `re.search(r"[a-zA-Z]{5,}", s)` succeed: is there a run of five
consecutive ASCII letters? -/
def hasLetterRun5 : List Char → Bool
  | a :: b :: c :: d :: e :: rest =>
    (isAlpha a && isAlpha b && isAlpha c && isAlpha d && isAlpha e) ||
      hasLetterRun5 (b :: c :: d :: e :: rest)
  | _ => false

/-! ## `extract_dutch_text_from_xml` -/

/-- The fixed section-kind list of `extract_dutch_text_from_xml`, in source
order. -/
def relevant_sections : List String :=
  ["PV.Other.Text", "PV.Debate.Text", "PV.Vote.Text", "PV.Sitting.Resumption.Text",
   "PV.Approval.Text", "PV.Agenda.Text", "PV.Sitting.Closure.Text"]

/-- The loop body of `extract_dutch_text_from_xml` for one `text:p` element
(with the tags of its strict ancestors): the empty-text skip, the
`ancestor::table:table` skip, the duplicated speaker-name-list skip (the
compared text is `string(./Orator.List.Text)`), and the short-fragment
skip; survivors contribute their stripped full text. -/
def procPara (p : XNode) (anc : List String) : Option (List Char) :=
  let text_content := pyStrip (stringOf p)
  if text_content.isEmpty then none
  else if anc.contains "table:table" then none
  else if (!(childrenTag "Orator.List.Text" p).isEmpty || !(childrenTag "Attendance.Participant.Name" p).isEmpty)
      && decide (text_content.length < 100)
      && (let name_list_text := pyStrip (childString "Orator.List.Text" p)
          !name_list_text.isEmpty && name_list_text == text_content) then none
  else if text_content.length < 20 && !hasLetterRun5 text_content then none
  else some text_content

/-- All `text:p` elements of the document in document order, with their
strict-ancestor tags. -/
def pEntries (root : XNode) : List (XNode × List String) :=
  (nodesAnc root []).filter (fun e => e.1.isElemTag "text:p")

/-- XPath `//SEC//text:p` with the loop-body filters applied: the surviving
paragraph texts of one section kind, in document order. -/
def sectionFragments (sec : String) (root : XNode) : List (List Char) :=
  ((pEntries root).filter (fun e => e.2.contains sec)).filterMap (fun e => procPara e.1 e.2)

/-- The `dutch_texts` list built by the nested loops: section kinds in the
fixed list order, paragraphs in document order within each kind. -/
def xmlFragments (root : XNode) : List (List Char) :=
  (relevant_sections.map (fun sec => sectionFragments sec root)).flatten

/-- The function `extract_dutch_text_from_xml` from `src/scraper.py`; the lenient lxml
parse (`etree.fromstring`, returning recovery output or failing) is
abstracted as the `parse` parameter. -/
def extract_dutch_text_from_xml (parse : List Char → Option XNode)
    (xml_content : List Char) : Option (List Char) :=
  match parse xml_content with
  | none => none
  | some root =>
    let final_text := clean_text (List.intercalate ['\n'] (xmlFragments root))
    if !final_text.isEmpty && decide (50 < final_text.length) then some final_text else none

/-! ## `extract_dutch_text_from_html` -/

/-- BeautifulSoup stripped strings: text descendants, each stripped, empty
ones dropped. -/
def strippedStrings (n : XNode) : List (List Char) :=
  ((textNodes n).map pyStrip).filter (fun t => !t.isEmpty)

/-- BeautifulSoup's `element.get_text(sep, strip=True)`. -/
def getTextSep (sep : List Char) (n : XNode) : List Char :=
  List.intercalate sep (strippedStrings n)

/-- BeautifulSoup's `soup.find_all(tag)`: all elements with the tag, in document order. -/
def allElemsTag (tag : String) (root : XNode) : List XNode :=
  ((nodesAnc root []).map Prod.fst).filter (XNode.isElemTag tag)

/-- The paragraph list of `extract_dutch_text_from_html`:
`[p.get_text(" ", strip=True) for p in soup.find_all("p") if p.get_text(strip=True)]`. -/
def htmlParagraphs (soup : XNode) : List (List Char) :=
  (allElemsTag "p" soup).filterMap (fun p =>
    if !(strippedStrings p).isEmpty then some (getTextSep [' '] p) else none)

/-- The function `extract_dutch_text_from_html` from `src/scraper.py`; the BeautifulSoup
parse is abstracted as the `parseHtml` parameter. -/
def extract_dutch_text_from_html (parseHtml : List Char → XNode)
    (html_content : List Char) : Option (List Char) :=
  let final_text := clean_text (List.intercalate ['\n'] (htmlParagraphs (parseHtml html_content)))
  if !final_text.isEmpty && decide (50 < final_text.length) then some final_text else none

/-! ## `fetch_minutes_text` -/

/-- An HTTP response: status code and body.  `session.get` is abstracted as
a function returning `none` on a network failure (a raised request
exception) and `some` response otherwise. -/
structure HResp where
  status : Nat
  body : List Char
deriving DecidableEq

/-- Does `s` end with `suf` (`str.endswith`)? -/
def strEndsWith (suf s : String) : Bool :=
  litHere suf.data (s.data.drop (s.data.length - suf.data.length))

/-- Python `str.replace(pat, repl)`: replace all occurrences left to right. -/
def pyReplace (pat repl s : String) : String :=
  String.mk (pysub (fun t => (litPre false pat.data t).map (fun _ => pat.data.length)) repl.data s.data)

/-- The function `fetch_minutes_text` from `src/scraper.py`: fetch the primary URL; on a
404 for an `_NL.xml` URL retry the `_NL.html` variant once and extract from
HTML; otherwise `raise_for_status` (an error for any status of 400 or
above) and extract from XML. -/
def fetch_minutes_text (get : String → Option HResp) (parse : List Char → Option XNode)
    (parseHtml : List Char → XNode) (url : String) : Except String (Option (List Char)) :=
  match get url with
  | none => Except.error url
  | some resp =>
    if resp.status == 404 && strEndsWith "_NL.xml" url then
      let html_url := pyReplace "_NL.xml" "_NL.html" url
      match get html_url with
      | none => Except.error html_url
      | some r2 =>
        if 400 ≤ r2.status then Except.error html_url
        else Except.ok (extract_dutch_text_from_html parseHtml r2.body)
    else if 400 ≤ resp.status then Except.error url
    else Except.ok (extract_dutch_text_from_xml parse resp.body)

/-- The sequence of URLs `fetch_minutes_text` issues GET requests for. -/
def fetch_requests (get : String → Option HResp) (url : String) : List String :=
  match get url with
  | none => [url]
  | some resp =>
    if resp.status == 404 && strEndsWith "_NL.xml" url then
      [url, pyReplace "_NL.xml" "_NL.html" url]
    else [url]

/-- Is an `Except` value a success? -/
def exceptIsOk {ε α : Type} : Except ε α → Bool
  | Except.ok _ => true
  | Except.error _ => false

/-! ## `collect_minutes_urls`

The page world is abstracted as `w : String → Option (Option String)`:
`none` means the fetch of that TOC page raised (network failure or
`raise_for_status`); `some none` means the page has no usable "Volgende"
link (absent anchor or empty `href`); `some (some u)` means the link
resolves (after `urljoin`) to `u`. -/

/-- The TOC-to-document URL rewrite: `current.replace("-TOC_NL.html", "_NL.xml")`. -/
def rewriteUrl (u : String) : String :=
  pyReplace "-TOC_NL.html" "_NL.xml" u

/-- Output of a crawl: the returned value (or propagated error), plus the
trace of pages actually fetched, in processing order. -/
structure CrawlOut where
  result : Except String (List String)
  trace : List String

/-- The `while` loop of `collect_minutes_urls`: stop when the current URL
is falsy or already visited; otherwise mark it visited, fetch it (a failure
propagates, discarding the accumulator), append its rewritten document URL,
and follow the next link if present. -/
def collectRun (w : String → Option (Option String)) :
    Nat → List String → String → List String → CrawlOut
  | 0, _, _, acc => ⟨Except.ok acc, []⟩
  | fuel + 1, visited, current, acc =>
    if current == "" || visited.contains current then ⟨Except.ok acc, []⟩
    else
      match w current with
      | none => ⟨Except.error current, [current]⟩
      | some none => ⟨Except.ok (acc ++ [rewriteUrl current]), [current]⟩
      | some (some nxt) =>
        let out := collectRun w fuel (current :: visited) nxt (acc ++ [rewriteUrl current])
        ⟨out.result, current :: out.trace⟩

/-- The function `collect_minutes_urls` from `src/scraper.py` (fuel bounds the number of
loop iterations; any fuel beyond the number of distinct reachable pages
gives the same result). -/
def collect_minutes_urls (w : String → Option (Option String)) (fuel : Nat)
    (start : String) : Except String (List String) :=
  (collectRun w fuel [] start []).result

/-- The pages fetched by a crawl, in processing order. -/
def crawlTrace (w : String → Option (Option String)) (fuel : Nat)
    (start : String) : List String :=
  (collectRun w fuel [] start []).trace

/-! ## `scrape` -/

/-- The fixed source label of every record. -/
def source_label : String := "European Parliament Minutes"

/-- A scraped record: `{"URL": url, "text": text, "source": ...}`. -/
structure Record where
  url : String
  text : List Char
  source : String
deriving DecidableEq

/-- The per-item loop of `scrape`: each URL is fetched inside
`try/except`; an exception (`Except.error`) or an empty/absent text is
logged and skipped, a non-empty text appends a record. -/
def scrapeItems (fetch : String → Except String (Option (List Char))) :
    List String → List Record
  | [] => []
  | u :: rest =>
    match fetch u with
    | Except.ok (some t) =>
      if !t.isEmpty then ⟨u, t, source_label⟩ :: scrapeItems fetch rest
      else scrapeItems fetch rest
    | _ => scrapeItems fetch rest

/-- The function `scrape` from `src/scraper.py`: collect the URL list (a crawl error
propagates, as the call is outside the `try`), then run the per-item loop. -/
def scrape (w : String → Option (Option String))
    (fetch : String → Except String (Option (List Char)))
    (fuel : Nat) (start : String) : Except String (List Record) :=
  match collect_minutes_urls w fuel start with
  | Except.error e => Except.error e
  | Except.ok urls => Except.ok (scrapeItems fetch urls)

/-! ## Generic-XML strategy (spec-modelled) -/

/-- Modelled from the spec: the generic-XML extraction strategy (spec
section 4.3 variant 1 and section 8 "Fallback precedence") belongs to the
repository's second pipeline, which is not among the provided source
files.  Following the spec's words: select nodes whose language attribute
— checked under either of two possible attribute names — equals the target
language code case-insensitively; the two attribute names. -/
def lang_attr_names : List String := ["xml:lang", "lang"]

/-- Modelled from the spec: the target language code. -/
def target_lang : String := "nl"

/-- ASCII lowercasing of a string. -/
def lowerStr (s : String) : String :=
  String.mk (s.data.map lowc)

/-- Modelled from the spec: does this node carry the target-language
attribute (either attribute name, value compared case-insensitively)? -/
def nodeLangMatch (n : XNode) : Bool :=
  match n with
  | XNode.elem _ attrs _ => attrs.any (fun kv => lang_attr_names.contains kv.1 && lowerStr kv.2 == target_lang)
  | XNode.text _ => false

/-- Modelled from the spec: the selected language-tagged nodes, in document
order. -/
def langNodes (root : XNode) : List XNode :=
  ((nodesAnc root []).map Prod.fst).filter nodeLangMatch

/-- Modelled from the spec: the generic-XML strategy — concatenate the
selected nodes' inner text with newline separators, falling back to the
concatenation of every text node in document order when no node is
selected; clean, and accept only above the 50-character gate. -/
def extract_generic_xml (root : XNode) : Option (List Char) :=
  let ns := langNodes root
  let txt := if ns.isEmpty then (textNodes root).flatten
             else List.intercalate ['\n'] (ns.map stringOf)
  let final_text := clean_text txt
  if 50 < final_text.length then some final_text else none

/-! ## Predicates used by the stated properties -/

/-- Equality is decidable on fetch/crawl outcomes. -/
instance instDecEqExcept {ε α : Type} [DecidableEq ε] [DecidableEq α] :
    DecidableEq (Except ε α)
  | Except.ok a, Except.ok b =>
    if h : a = b then Decidable.isTrue (by rw [h])
    else Decidable.isFalse (fun hh => h (Except.ok.inj hh))
  | Except.error a, Except.error b =>
    if h : a = b then Decidable.isTrue (by rw [h])
    else Decidable.isFalse (fun hh => h (Except.error.inj hh))
  | Except.ok _, Except.error _ => Decidable.isFalse (fun hh => Except.noConfusion hh)
  | Except.error _, Except.ok _ => Decidable.isFalse (fun hh => Except.noConfusion hh)

/-- Every whitespace character is a plain ASCII space. -/
def allSp (l : List Char) : Bool :=
  l.all (fun c => !isWs c || c == ' ')

/-- No two adjacent whitespace characters. -/
def noAdjWs : List Char → Bool
  | [] => true
  | a :: l =>
    (match l.head? with
     | some b => !(isWs a && isWs b)
     | none => true) && noAdjWs l

/-- Whitespace-normalised: every whitespace character is a single ASCII
space, no two adjacent, none leading or trailing. -/
def wsNormalized (l : List Char) : Bool :=
  allSp l && noAdjWs l &&
  (match l.head? with
   | some c => !isWs c
   | none => true) &&
  (match l.getLast? with
   | some c => !isWs c
   | none => true)

/-- The number of URLs of the finite page universe `U` not yet visited:
the termination measure of the crawl loop. -/
def remCount (U visited : List String) : Nat :=
  (U.filter (fun u => !visited.contains u)).length

/-- The crawl trace stops for a legitimate reason: the last processed page
failed to fetch, had no next link, or its next link targets an empty URL or
an already-processed one (the re-encounter). -/
def stopsOk (w : String → Option (Option String)) (T : List String) : Prop :=
  ∀ l, T.getLast? = some l →
    w l = none ∨ w l = some none ∨
      ∃ v, w l = some (some v) ∧ (v = "" ∨ v ∈ T)

/-! ## Concrete documents and worlds used as test inputs -/

/-- A paragraph that merely duplicates a participant name (not an orator
list). -/
def pNameDup : XNode :=
  XNode.elem "text:p" []
    [XNode.elem "Attendance.Participant.Name" [] [XNode.text "Jan Jansen".data]]

/-- A paragraph that merely duplicates an orator list. -/
def pOratorDup : XNode :=
  XNode.elem "text:p" []
    [XNode.elem "Orator.List.Text" [] [XNode.text "Jan Jansen".data]]

/-- A document whose only paragraph duplicates a participant name. -/
def docNameDup : XNode := XNode.elem "PV.Other.Text" [] [pNameDup]

/-- Paragraph text appearing first in `docTwoKinds`. -/
def fragDebate : List Char := "Eerste alinea uit het debatgedeelte van de notulen.".data

/-- Paragraph text appearing second in `docTwoKinds`. -/
def fragOther : List Char := "Tweede alinea uit het overige gedeelte hier.".data

/-- A document with a debate section before an other-business section. -/
def docTwoKinds : XNode :=
  XNode.elem "root" []
    [XNode.elem "PV.Debate.Text" [] [XNode.elem "text:p" [] [XNode.text fragDebate]],
     XNode.elem "PV.Other.Text" [] [XNode.elem "text:p" [] [XNode.text fragOther]]]

/-- A document whose single paragraph cleans to 51 characters. -/
def docLen51 : XNode :=
  XNode.elem "PV.Other.Text" [] [XNode.elem "text:p" [] [XNode.text (List.replicate 51 'a')]]

/-- A document whose single paragraph cleans to 50 characters. -/
def docLen50 : XNode :=
  XNode.elem "PV.Other.Text" [] [XNode.elem "text:p" [] [XNode.text (List.replicate 50 'a')]]

/-- A document with no language-tagged node and 60 characters of text. -/
def docNoLang : XNode :=
  XNode.elem "r" [("id", "x")]
    [XNode.text (List.replicate 30 'a'), XNode.elem "s" [] [XNode.text (List.replicate 30 'b')]]

/-- A two-page world whose next links form a cycle: A links to B and B
links back to A. -/
def wCycle : String → Option (Option String) := fun u =>
  if u = "https://e/PV-1-TOC_NL.html" then some (some "https://e/PV-2-TOC_NL.html")
  else if u = "https://e/PV-2-TOC_NL.html" then some (some "https://e/PV-1-TOC_NL.html")
  else some none

/-- The page universe of `wCycle`. -/
def uCycle : List String := ["https://e/PV-1-TOC_NL.html", "https://e/PV-2-TOC_NL.html"]

/-- A world where page A links to page B and fetching B fails. -/
def wFailB : String → Option (Option String) := fun u =>
  if u = "https://e/PV-1-TOC_NL.html" then some (some "https://e/PV-2-TOC_NL.html")
  else if u = "https://e/PV-2-TOC_NL.html" then none
  else some none

/-- An HTTP world where both the XML and the HTML variant of an item
return 404. -/
def get404Both : String → Option HResp := fun u =>
  if u = "https://e/PV-1_NL.xml" then some ⟨404, []⟩
  else if u = "https://e/PV-1_NL.html" then some ⟨404, []⟩
  else none

/-- An HTTP world where the XML variant returns 404 and the HTML variant
succeeds. -/
def get404Ok : String → Option HResp := fun u =>
  if u = "https://e/PV-1_NL.xml" then some ⟨404, []⟩
  else if u = "https://e/PV-1_NL.html" then some ⟨200, "body".data⟩
  else none

/-! ## Helper lemmas -/

/-- The acceptance test `final_text and len(final_text) > 50` is the plain
50-character length gate: a list longer than 50 is automatically nonempty. -/
theorem gate_if (ft : List Char) :
    (if !ft.isEmpty && decide (50 < ft.length) then some ft else none) =
    (if 50 < ft.length then some ft else none) := by
  by_cases h : 50 < ft.length
  · have hne : ft.isEmpty = false := by
      cases ft with
      | nil => simp at h
      | cons a l => rfl
    simp [h, hne]
  · simp [h]

/-! ## C1 -/

/-- C1: the claimed idempotence `clean(clean(s)) = clean(s)` fails on the
code at the input `"((debat)debat)"`: the `\((?:debat|stemming|vraag|interventie)\)`
rule removes only the inner `(debat)` and its deletion regenerates a
match, so one pass yields `"(debat)"` while a second pass yields the empty
string. -/
theorem c1_clean_text_not_idempotent :
    clean_text "((debat)debat)".data = "(debat)".data ∧
    clean_text (clean_text "((debat)debat)".data) = [] ∧
    clean_text (clean_text "((debat)debat)".data) ≠ clean_text "((debat)debat)".data :=
  ⟨by decide, by decide, by decide⟩

/-! ## C2 -/

/-- C2: each extraction strategy returns text exactly when the cleaned
concatenated text is strictly longer than 50 characters — every returned
text is longer than 50, the result is the cleaned text gated at 50, a
51-character cleaned result is accepted and a 50-character one yields
none. -/
theorem c2_extraction_length_gate :
    (∀ parse xml t, extract_dutch_text_from_xml parse xml = some t → 50 < t.length) ∧
    (∀ parse xml root, parse xml = some root →
        extract_dutch_text_from_xml parse xml =
          (if 50 < (clean_text (List.intercalate ['\n'] (xmlFragments root))).length
           then some (clean_text (List.intercalate ['\n'] (xmlFragments root))) else none)) ∧
    (∀ parseHtml html t, extract_dutch_text_from_html parseHtml html = some t → 50 < t.length) ∧
    (∀ parseHtml html, extract_dutch_text_from_html parseHtml html =
          (if 50 < (clean_text (List.intercalate ['\n'] (htmlParagraphs (parseHtml html)))).length
           then some (clean_text (List.intercalate ['\n'] (htmlParagraphs (parseHtml html)))) else none)) ∧
    extract_dutch_text_from_xml (fun _ => some docLen51) [] = some (List.replicate 51 'a') ∧
    extract_dutch_text_from_xml (fun _ => some docLen50) [] = none := by
  have hx : ∀ parse xml root, parse xml = some root →
      extract_dutch_text_from_xml parse xml =
        (if 50 < (clean_text (List.intercalate ['\n'] (xmlFragments root))).length
         then some (clean_text (List.intercalate ['\n'] (xmlFragments root))) else none) := by
    intro parse xml root hp
    unfold extract_dutch_text_from_xml
    rw [hp]
    exact gate_if _
  have hh : ∀ parseHtml html, extract_dutch_text_from_html parseHtml html =
      (if 50 < (clean_text (List.intercalate ['\n'] (htmlParagraphs (parseHtml html)))).length
       then some (clean_text (List.intercalate ['\n'] (htmlParagraphs (parseHtml html)))) else none) := by
    intro parseHtml html
    unfold extract_dutch_text_from_html
    exact gate_if _
  refine ⟨?_, hx, ?_, hh, by decide, by decide⟩
  · intro parse xml t h
    cases hp : parse xml with
    | none => rw [extract_dutch_text_from_xml, hp] at h; exact absurd h (by simp)
    | some root =>
      rw [hx parse xml root hp] at h
      split at h
      next hcond => exact (Option.some.inj h) ▸ hcond
      next => exact Option.noConfusion h
  · intro parseHtml html t h
    rw [hh parseHtml html] at h
    split at h
    next hcond => exact (Option.some.inj h) ▸ hcond
    next => exact Option.noConfusion h

/-- C2 witness: the 51-character document is accepted and its returned text
is indeed longer than 50 characters. -/
theorem c2_extraction_length_gate_witness :
    50 < (List.replicate 51 'a' : List Char).length :=
  c2_extraction_length_gate.1 (fun _ => some docLen51) [] (List.replicate 51 'a') (by decide)

/-! ## C7 -/

/-- C7 counterexample: the paragraph of `docNameDup` has full text
`"Jan Jansen"`, equal to the text of its nested participant-name
sub-element and shorter than 100 characters, yet it is not excluded — it
is the extracted fragment of the document, because the code compares the
paragraph text only against `string(./Orator.List.Text)`. -/
theorem c7_counterexample :
    pyStrip (stringOf pNameDup) = "Jan Jansen".data ∧
    childString "Attendance.Participant.Name" pNameDup = "Jan Jansen".data ∧
    (pyStrip (stringOf pNameDup)).length < 100 ∧
    xmlFragments docNameDup = ["Jan Jansen".data] :=
  ⟨by decide, by decide, by decide, by decide⟩

/-- C7 amended: the duplicated-speaker-name filter fires when either
sub-element kind is present, but the compared text is always the
orator-list sub-element's: a paragraph whose nonempty text is shorter than
100 characters and equal to its orator-list text is excluded, while a
paragraph without an orator-list child is never excluded by this filter
and survives whenever it passes the emptiness, table and short-fragment
filters. -/
theorem c7_speaker_filter (p : XNode) (anc : List String) :
    (anc.contains "table:table" = false →
     (!(childrenTag "Orator.List.Text" p).isEmpty ||
        !(childrenTag "Attendance.Participant.Name" p).isEmpty) = true →
     (pyStrip (stringOf p)).length < 100 →
     pyStrip (childString "Orator.List.Text" p) = pyStrip (stringOf p) →
     pyStrip (stringOf p) ≠ [] →
     procPara p anc = none) ∧
    ((childrenTag "Orator.List.Text" p).isEmpty = true →
     pyStrip (stringOf p) ≠ [] →
     anc.contains "table:table" = false →
     (20 ≤ (pyStrip (stringOf p)).length ∨ hasLetterRun5 (pyStrip (stringOf p)) = true) →
     procPara p anc = some (pyStrip (stringOf p))) := by
  constructor
  · intro htab hguard hlen heq hne
    have h1 : (pyStrip (stringOf p)).isEmpty = false := by
      cases hpp : pyStrip (stringOf p) with
      | nil => exact absurd hpp hne
      | cons a l => rfl
    simp [procPara, h1, htab, hguard, hlen, heq]
  · intro hor hne htab hpass
    have h1 : (pyStrip (stringOf p)).isEmpty = false := by
      cases hpp : pyStrip (stringOf p) with
      | nil => exact absurd hpp hne
      | cons a l => rfl
    have hct : childrenTag "Orator.List.Text" p = [] := by
      cases hc : childrenTag "Orator.List.Text" p with
      | nil => rfl
      | cons a l => rw [hc] at hor; exact absurd hor (by simp)
    have hcs : childString "Orator.List.Text" p = [] := by
      simp [childString, hct]
    have himp : (pyStrip (stringOf p)).length < 20 →
        hasLetterRun5 (pyStrip (stringOf p)) = true := by
      intro hlt
      cases hpass with
      | inl h => omega
      | inr h => exact h
    have hps : pyStrip ([] : List Char) = [] := rfl
    simp [procPara, h1, hcs, hps, htab, hne, himp]
    exact ⟨by simpa using htab, himp⟩

/-- C7 witness: at the orator-list duplicate the filter excludes the
paragraph; at the participant-name duplicate it keeps it. -/
theorem c7_speaker_filter_witness :
    procPara pOratorDup [] = none ∧ procPara pNameDup [] = some ("Jan Jansen".data) :=
  ⟨(c7_speaker_filter pOratorDup []).1 (by decide) (by decide) (by decide) (by decide) (by decide),
   (c7_speaker_filter pNameDup []).2 (by decide) (by decide) (by decide) (Or.inr (by decide))⟩

/-! ## C8 -/

/-- C8 counterexample: in `docTwoKinds` the debate paragraph appears
before the other-business paragraph in the document and both survive the
filters, yet the extracted fragments list the other-business paragraph
first, because sections are processed by kind, not in document order. -/
theorem c8_counterexample :
    (pEntries docTwoKinds).filterMap (fun e => procPara e.1 e.2) = [fragDebate, fragOther] ∧
    xmlFragments docTwoKinds = [fragOther, fragDebate] ∧
    fragDebate ≠ fragOther :=
  ⟨by decide, by decide, by decide⟩

/-- C8 amended: the extraction concatenates fragments grouped by the fixed
section-kind list order; within each section kind fragments do preserve
document order — each kind's fragment list is a sublist of the
document-order list of all surviving paragraph texts — but two surviving
paragraphs of different kinds appear in kind order, which can differ from
document order. -/
theorem c8_fragment_order (root : XNode) (sec : String) :
    List.Sublist (sectionFragments sec root)
      ((pEntries root).filterMap (fun e => procPara e.1 e.2)) ∧
    xmlFragments root = (relevant_sections.map (fun s => sectionFragments s root)).flatten :=
  ⟨(List.filter_sublist _).filterMap _, rfl⟩

/-! ## C9 -/

/-- C9: the per-item loop is total and per-item isolated: its result is
exactly the in-order filterMap of the item outcomes — a fetch error or an
absent/empty text contributes nothing and the loop continues, a non-empty
text contributes a record tagged with the fixed source label, and the
accumulated list (possibly empty) preserves discovery order. -/
theorem c9_per_item_isolation (fetch : String → Except String (Option (List Char)))
    (urls : List String) :
    scrapeItems fetch urls = urls.filterMap (fun u =>
      match fetch u with
      | Except.ok (some t) => if !t.isEmpty then some ⟨u, t, source_label⟩ else none
      | _ => none) := by
  induction urls with
  | nil => rfl
  | cons u rest ih =>
    cases hf : fetch u with
    | error e => simp [scrapeItems, List.filterMap_cons, hf, ih]
    | ok o =>
      cases o with
      | none => simp [scrapeItems, List.filterMap_cons, hf, ih]
      | some t =>
        by_cases ht : t = []
        · simp [scrapeItems, List.filterMap_cons, hf, ht, ih]
        · simp [scrapeItems, List.filterMap_cons, hf, ht, ih]

/-! ## C5 -/

/-- C5 counterexample: with both the XML and the HTML variant returning
404, the fetcher does not return the retry's result without raising — the
secondary `raise_for_status` propagates a fetch error. -/
theorem c5_counterexample :
    fetch_minutes_text get404Both (fun _ => none) (fun _ => XNode.text [])
      "https://e/PV-1_NL.xml" = Except.error "https://e/PV-1_NL.html" ∧
    exceptIsOk (fetch_minutes_text get404Both (fun _ => none) (fun _ => XNode.text [])
      "https://e/PV-1_NL.xml") = false :=
  ⟨by decide, by decide⟩

/-- C5 amended: for a primary-format URL (ending in `_NL.xml`), a 404 on
the primary fetch causes exactly one retry of the secondary-format URL; if
the secondary fetch succeeds, its HTML-extraction result is returned
without raising, but a non-success secondary response raises a fetch
error; any other non-success primary status propagates a fetch error with
no retry. -/
theorem c5_format_fallback (get : String → Option HResp) (parse : List Char → Option XNode)
    (parseHtml : List Char → XNode) (url : String) (r : HResp)
    (hx : strEndsWith "_NL.xml" url = true) (hg : get url = some r) :
    (r.status = 404 →
      fetch_requests get url = [url, pyReplace "_NL.xml" "_NL.html" url]) ∧
    (r.status = 404 → ∀ r2, get (pyReplace "_NL.xml" "_NL.html" url) = some r2 →
      r2.status < 400 →
      fetch_minutes_text get parse parseHtml url =
        Except.ok (extract_dutch_text_from_html parseHtml r2.body)) ∧
    (r.status = 404 → ∀ r2, get (pyReplace "_NL.xml" "_NL.html" url) = some r2 →
      400 ≤ r2.status →
      fetch_minutes_text get parse parseHtml url =
        Except.error (pyReplace "_NL.xml" "_NL.html" url)) ∧
    (400 ≤ r.status → r.status ≠ 404 →
      fetch_minutes_text get parse parseHtml url = Except.error url) := by
  refine ⟨?_, ?_, ?_, ?_⟩
  · intro h404
    simp [fetch_requests, hg, h404, hx]
  · intro h404 r2 hg2 hs2
    have hnle : ¬ (400 ≤ r2.status) := by omega
    simp [fetch_minutes_text, hg, h404, hx, hg2, hnle]
  · intro h404 r2 hg2 hs2
    simp [fetch_minutes_text, hg, h404, hx, hg2, hs2]
  · intro hs h404
    simp [fetch_minutes_text, hg, hx, h404, hs]

/-- C5 witness: a world where the XML variant 404s and the HTML variant
succeeds — the fetcher requests exactly the two format URLs in order. -/
theorem c5_format_fallback_witness :
    fetch_requests get404Ok "https://e/PV-1_NL.xml" =
      ["https://e/PV-1_NL.xml", "https://e/PV-1_NL.html"] :=
  (c5_format_fallback get404Ok (fun _ => none) (fun _ => XNode.text [])
      "https://e/PV-1_NL.xml" ⟨404, []⟩ (by decide) (by decide)).1 rfl

/-! ## C4 -/

/-- C4 counterexample: page A succeeds and links to page B whose fetch
fails; the crawl returns the propagated error — not the partial list
containing A's rewritten document URL, which is lost. -/
theorem c4_counterexample :
    collect_minutes_urls wFailB 5 "https://e/PV-1-TOC_NL.html" =
      Except.error "https://e/PV-2-TOC_NL.html" ∧
    collect_minutes_urls wFailB 5 "https://e/PV-1-TOC_NL.html" ≠
      Except.ok [rewriteUrl "https://e/PV-1-TOC_NL.html"] :=
  ⟨by decide, by decide⟩

/-- C4 amended: a pagination-page fetch failure aborts the crawl by
propagating the error; the URLs accumulated from already-processed pages
are discarded with the accumulator, not returned. -/
theorem c4_pagination_failure (w : String → Option (Option String)) (fuel : Nat)
    (visited : List String) (current : String) (acc : List String)
    (hw : w current = none) (hc : (current == "" || visited.contains current) = false) :
    (collectRun w (fuel + 1) visited current acc).result = Except.error current := by
  have hc2 : ¬(current = "" ∨ current ∈ visited) := by simpa using hc
  simp [collectRun, hw, hc2]

/-- C4 witness: after processing page A, the failing fetch of page B
aborts with an error even though the accumulator already holds A's
document URL. -/
theorem c4_pagination_failure_witness :
    (collectRun wFailB 3 ["https://e/PV-1-TOC_NL.html"] "https://e/PV-2-TOC_NL.html"
        [rewriteUrl "https://e/PV-1-TOC_NL.html"]).result =
      Except.error "https://e/PV-2-TOC_NL.html" :=
  c4_pagination_failure wFailB 2 _ _ _ (by decide) (by decide)

/-! ## C6 -/

/-- C6 (spec-modelled): the generic-XML strategy selects exactly the nodes
carrying the target-language attribute under either of the two attribute
names, compared case-insensitively; and on any document where no node is
selected it falls back to the concatenation of every text node in document
order, succeeding exactly when that cleaned text is longer than the
50-character triviality gate. -/
theorem c6_generic_xml_selection (root : XNode) :
    (∀ n, n ∈ langNodes root ↔
      (n ∈ (nodesAnc root []).map Prod.fst ∧
        ∃ kv ∈ n.attrsOf, (kv.1 = "xml:lang" ∨ kv.1 = "lang") ∧ lowerStr kv.2 = target_lang)) ∧
    (langNodes root = [] →
      extract_generic_xml root =
        (if 50 < (clean_text ((textNodes root).flatten)).length
         then some (clean_text ((textNodes root).flatten)) else none)) := by
  constructor
  · intro n
    simp only [langNodes, List.mem_filter]
    constructor
    · rintro ⟨hmem, hmatch⟩
      refine ⟨hmem, ?_⟩
      cases n with
      | text s => simp [nodeLangMatch] at hmatch
      | elem t a cs =>
        simp only [nodeLangMatch, List.any_eq_true, Bool.and_eq_true, beq_iff_eq] at hmatch
        obtain ⟨kv, hkv, h1, h2⟩ := hmatch
        refine ⟨kv, by simpa [XNode.attrsOf] using hkv, ?_, h2⟩
        simpa [lang_attr_names] using h1
    · rintro ⟨hmem, kv, hkv, h1, h2⟩
      refine ⟨hmem, ?_⟩
      cases n with
      | text s => simp [XNode.attrsOf] at hkv
      | elem t a cs =>
        simp only [nodeLangMatch, List.any_eq_true, Bool.and_eq_true, beq_iff_eq]
        exact ⟨kv, by simpa [XNode.attrsOf] using hkv, by simpa [lang_attr_names] using h1, h2⟩
  · intro hempty
    simp [extract_generic_xml, hempty]

/-- C6 witness: `docNoLang` carries no language-tagged node, so the
strategy falls back to the whole-document text and its 60 cleaned
characters pass the gate. -/
theorem c6_generic_xml_selection_witness :
    extract_generic_xml docNoLang =
      (if 50 < (clean_text ((textNodes docNoLang).flatten)).length
       then some (clean_text ((textNodes docNoLang).flatten)) else none) :=
  (c6_generic_xml_selection docNoLang).2 rfl

/-! ## C3: lemmas about the crawl loop -/

/-- Filtering with a stronger predicate keeps at most as many elements. -/
theorem filter_length_le_of_imp {α : Type} (p₁ p₂ : α → Bool)
    (himp : ∀ u, p₂ u = true → p₁ u = true) (U : List α) :
    (U.filter p₂).length ≤ (U.filter p₁).length := by
  induction U with
  | nil => simp
  | cons b U ih =>
    rw [List.filter_cons, List.filter_cons]
    by_cases hb2 : p₂ b = true
    · rw [if_pos hb2, if_pos (himp b hb2)]
      simpa using ih
    · rw [if_neg hb2]
      by_cases hb1 : p₁ b = true
      · rw [if_pos hb1]
        exact Nat.le_succ_of_le ih
      · rw [if_neg hb1]
        exact ih

/-- Filtering with a strictly stronger predicate on a present element
keeps strictly fewer elements. -/
theorem filter_length_lt_of_imp {α : Type} (p₁ p₂ : α → Bool)
    (himp : ∀ u, p₂ u = true → p₁ u = true) (a : α)
    (ha2 : p₂ a = false) (ha1 : p₁ a = true) (U : List α) (haU : a ∈ U) :
    (U.filter p₂).length < (U.filter p₁).length := by
  induction U with
  | nil => cases haU
  | cons b U ih =>
    rw [List.filter_cons, List.filter_cons]
    rcases List.mem_cons.mp haU with rfl | hmem
    · rw [if_neg (by simp [ha2]), if_pos ha1]
      exact Nat.lt_succ_of_le (filter_length_le_of_imp p₁ p₂ himp U)
    · by_cases hb2 : p₂ b = true
      · rw [if_pos hb2, if_pos (himp b hb2)]
        simpa using ih hmem
      · rw [if_neg hb2]
        by_cases hb1 : p₁ b = true
        · rw [if_pos hb1]
          exact Nat.lt_succ_of_lt (ih hmem)
        · rw [if_neg hb1]
          exact ih hmem

/-- Visiting a fresh page of the universe strictly shrinks the unvisited
count: the crawl loop's termination measure. -/
theorem remCount_lt (U visited : List String) (current : String)
    (hU : current ∈ U) (hv : current ∉ visited) :
    remCount U (current :: visited) < remCount U visited := by
  apply filter_length_lt_of_imp _ _ _ current _ _ _ hU
  · intro u hu
    simp only [Bool.not_eq_true'] at hu ⊢
    rw [List.contains_cons] at hu
    exact (Bool.or_eq_false_iff.mp hu).2
  · simp [List.contains_cons]
  · simpa using hv

/-- Every page in the crawl trace was unvisited when the run started, and
the trace never repeats a page: no URL is processed twice. -/
theorem collectRun_trace_nodup (w : String → Option (Option String)) :
    ∀ (fuel : Nat) (visited : List String) (current : String) (acc : List String),
      (∀ v ∈ (collectRun w fuel visited current acc).trace, v ∉ visited) ∧
      (collectRun w fuel visited current acc).trace.Nodup := by
  intro fuel
  induction fuel with
  | zero =>
    intro visited current acc
    simp [collectRun]
  | succ fuel ih =>
    intro visited current acc
    by_cases hcp : current = "" ∨ current ∈ visited
    · simp [collectRun, hcp]
    · have hce : current ≠ "" := fun h => hcp (Or.inl h)
      have hcv : current ∉ visited := fun h => hcp (Or.inr h)
      cases hw : w current with
      | none =>
        simp [collectRun, hcp, hw, hcv, hce]
      | some o =>
        cases o with
        | none =>
          simp [collectRun, hcp, hw, hcv, hce]
        | some nxt =>
          obtain ⟨hfresh, hnodup⟩ := ih (current :: visited) nxt (acc ++ [rewriteUrl current])
          have htr : (collectRun w (fuel + 1) visited current acc).trace =
              current :: (collectRun w fuel (current :: visited) nxt
                (acc ++ [rewriteUrl current])).trace := by
            simp [collectRun, hcp, hw]
          rw [htr]
          constructor
          · intro v hv
            rcases List.mem_cons.mp hv with rfl | hv2
            · exact hcv
            · intro hvis
              exact hfresh v hv2 (List.mem_cons_of_mem _ hvis)
          · rw [List.nodup_cons]
            exact ⟨fun hmem => hfresh current hmem (List.mem_cons_self _ _), hnodup⟩

/-- Beyond the number of unvisited universe pages, the crawl's outcome no
longer depends on the fuel: the loop terminates. -/
theorem collectRun_fuel_stable (w : String → Option (Option String)) (U : List String)
    (hcl : ∀ u v, w u = some (some v) → v ∈ U) :
    ∀ (f₁ f₂ : Nat) (visited : List String) (current : String) (acc : List String),
      (current = "" ∨ current ∈ visited ∨ current ∈ U) →
      remCount U visited < f₁ → remCount U visited < f₂ →
      collectRun w f₁ visited current acc = collectRun w f₂ visited current acc := by
  intro f₁
  induction f₁ with
  | zero =>
    intro f₂ visited current acc hcur h1 h2
    omega
  | succ f₁ ih =>
    intro f₂ visited current acc hcur h1 h2
    cases f₂ with
    | zero => omega
    | succ f₂ =>
      by_cases hcp : current = "" ∨ current ∈ visited
      · simp [collectRun, hcp]
      · have hce : current ≠ "" := fun h => hcp (Or.inl h)
        have hcv : current ∉ visited := fun h => hcp (Or.inr h)
        cases hw : w current with
        | none => simp [collectRun, hcp, hw]
        | some o =>
          cases o with
          | none => simp [collectRun, hcp, hw]
          | some nxt =>
            have hcU : current ∈ U := by
              rcases hcur with h | h | h
              · exact absurd h hce
              · exact absurd h hcv
              · exact h
            have hlt := remCount_lt U visited current hcU hcv
            have hrec := ih f₂ (current :: visited) nxt (acc ++ [rewriteUrl current])
              (Or.inr (Or.inr (hcl current nxt hw))) (by omega) (by omega)
            simp [collectRun, hcp, hw, hrec]

/-- When the crawl loop has enough fuel, it stops only for a legitimate
reason: the last processed page failed, had no next link, or linked to an
empty or already-visited URL — the re-encounter. -/
theorem collectRun_stop (w : String → Option (Option String)) (U : List String)
    (hcl : ∀ u v, w u = some (some v) → v ∈ U) :
    ∀ (f : Nat) (visited : List String) (current : String) (acc : List String),
      remCount U visited < f →
      (current = "" ∨ current ∈ visited ∨ current ∈ U) →
      ∀ l, (collectRun w f visited current acc).trace.getLast? = some l →
        w l = none ∨ w l = some none ∨
          ∃ v, w l = some (some v) ∧
            (v = "" ∨ v ∈ visited ∨
              v ∈ (collectRun w f visited current acc).trace) := by
  intro f
  induction f with
  | zero =>
    intro visited current acc hrem
    omega
  | succ f ih =>
    intro visited current acc hrem hcur l hl
    by_cases hcp : current = "" ∨ current ∈ visited
    · rw [show (collectRun w (f + 1) visited current acc).trace = [] by
          simp [collectRun, hcp]] at hl
      cases hl
    · have hce : current ≠ "" := fun h => hcp (Or.inl h)
      have hcv : current ∉ visited := fun h => hcp (Or.inr h)
      cases hw : w current with
      | none =>
        rw [show (collectRun w (f + 1) visited current acc).trace = [current] by
            simp [collectRun, hcp, hw]] at hl
        have hlc : l = current := by simpa using hl.symm
        rw [hlc]
        exact Or.inl hw
      | some o =>
        cases o with
        | none =>
          rw [show (collectRun w (f + 1) visited current acc).trace = [current] by
              simp [collectRun, hcp, hw]] at hl
          have hlc : l = current := by simpa using hl.symm
          rw [hlc]
          exact Or.inr (Or.inl hw)
        | some nxt =>
          have hcU : current ∈ U := by
            rcases hcur with h | h | h
            · exact absurd h hce
            · exact absurd h hcv
            · exact h
          have hlt := remCount_lt U visited current hcU hcv
          have htr : (collectRun w (f + 1) visited current acc).trace =
              current :: (collectRun w f (current :: visited) nxt
                (acc ++ [rewriteUrl current])).trace := by
            simp [collectRun, hcp, hw]
          rw [htr] at hl
          cases hT : (collectRun w f (current :: visited) nxt
              (acc ++ [rewriteUrl current])).trace with
          | nil =>
            rw [hT] at hl
            have hlc : l = current := by simpa using hl.symm
            rw [hlc]
            refine Or.inr (Or.inr ⟨nxt, hw, ?_⟩)
            obtain ⟨f2, rfl⟩ : ∃ f2, f = f2 + 1 := ⟨f - 1, by omega⟩
            by_cases hstop : nxt = "" ∨ nxt ∈ current :: visited
            · rcases hstop with h | h
              · exact Or.inl h
              · rcases List.mem_cons.mp h with h2 | h2
                · refine Or.inr (Or.inr ?_)
                  rw [htr, hT, h2]
                  exact List.mem_cons_self _ _
                · exact Or.inr (Or.inl h2)
            · exfalso
              have hn1 : ¬ nxt = "" := fun h => hstop (Or.inl h)
              have hn2 : ¬ nxt = current := fun h =>
                hstop (Or.inr (by rw [h]; exact List.mem_cons_self _ _))
              have hn3 : nxt ∉ visited := fun h =>
                hstop (Or.inr (List.mem_cons_of_mem _ h))
              cases hw2 : w nxt with
              | none => simp [collectRun, hn1, hn2, hn3, hw2] at hT
              | some o2 =>
                cases o2 with
                | none => simp [collectRun, hn1, hn2, hn3, hw2] at hT
                | some v2 => simp [collectRun, hn1, hn2, hn3, hw2] at hT
          | cons x xs =>
            rw [hT, List.getLast?_cons_cons] at hl
            have hrec := ih (current :: visited) nxt (acc ++ [rewriteUrl current])
              (by omega) (Or.inr (Or.inr (hcl current nxt hw))) l (by rw [hT]; exact hl)
            rcases hrec with h | h | ⟨v, hv, hd⟩
            · exact Or.inl h
            · exact Or.inr (Or.inl h)
            · refine Or.inr (Or.inr ⟨v, hv, ?_⟩)
              rcases hd with h | h | h
              · exact Or.inl h
              · rcases List.mem_cons.mp h with h2 | h2
                · refine Or.inr (Or.inr ?_)
                  rw [htr, h2]
                  exact List.mem_cons_self _ _
                · exact Or.inr (Or.inl h2)
              · refine Or.inr (Or.inr ?_)
                rw [htr]
                rw [hT] at h ⊢
                exact List.mem_cons_of_mem _ h

/-- C3: over any finite page universe closed under next links, the crawl
terminates (its outcome is fuel-independent beyond the universe size),
processes each distinct URL at most once (the trace of fetched pages has
no duplicates), and stops exactly at a legitimate stopping point — a
fetch failure, a missing next link, or a next link targeting an empty or
already-processed URL (the cycle re-encounter), which is not
reprocessed. -/
theorem c3_crawl_termination (w : String → Option (Option String)) (U : List String)
    (start : String) (fuel : Nat)
    (hcl : ∀ u v, w u = some (some v) → v ∈ U) (hs : start ∈ U) (hf : U.length < fuel) :
    (crawlTrace w fuel start).Nodup ∧
    collectRun w fuel [] start [] = collectRun w (U.length + 1) [] start [] ∧
    stopsOk w (crawlTrace w fuel start) := by
  have hrem : remCount U ([] : List String) = U.length := by
    simp [remCount]
  refine ⟨(collectRun_trace_nodup w fuel [] start []).2, ?_, ?_⟩
  · exact collectRun_fuel_stable w U hcl fuel (U.length + 1) [] start []
      (Or.inr (Or.inr hs)) (by omega) (by omega)
  · intro l hl
    have hstop := collectRun_stop w U hcl fuel [] start [] (by omega)
      (Or.inr (Or.inr hs)) l hl
    rcases hstop with h | h | ⟨v, hv, hd⟩
    · exact Or.inl h
    · exact Or.inr (Or.inl h)
    · refine Or.inr (Or.inr ⟨v, hv, ?_⟩)
      rcases hd with h | h | h
      · exact Or.inl h
      · simp at h
      · exact Or.inr h

/-- C3 witness: on the two-page cyclic world the crawl processes A then B
and stops at the re-encounter of A, each page exactly once. -/
theorem c3_crawl_termination_witness :
    (crawlTrace wCycle 7 "https://e/PV-1-TOC_NL.html").Nodup ∧
    crawlTrace wCycle 7 "https://e/PV-1-TOC_NL.html" =
      ["https://e/PV-1-TOC_NL.html", "https://e/PV-2-TOC_NL.html"] := by
  have hcl : ∀ u v, wCycle u = some (some v) → v ∈ uCycle := by
    intro u v h
    by_cases h1 : u = "https://e/PV-1-TOC_NL.html"
    · simp [wCycle, h1] at h
      simp [uCycle, ← h]
    · by_cases h2 : u = "https://e/PV-2-TOC_NL.html"
      · simp [wCycle, h1, h2] at h
        simp [uCycle, ← h]
      · simp [wCycle, h1, h2] at h
  refine ⟨(c3_crawl_termination wCycle uCycle "https://e/PV-1-TOC_NL.html" 7 hcl
      (by decide) (by decide)).1, by decide⟩

/-! ## C10: lemmas about whitespace normalisation -/

/-- A deletion pass yields a sublist of its input. -/
theorem subF_nil_sublist (m : List Char → Option Nat) :
    ∀ (fuel : Nat) (s : List Char), List.Sublist (subF m [] fuel s) s := by
  intro fuel
  induction fuel with
  | zero =>
    intro s
    exact List.Sublist.refl s
  | succ fuel ih =>
    intro s
    cases s with
    | nil => exact List.Sublist.refl []
    | cons c rest =>
      cases hm : m (c :: rest) with
      | none =>
        simpa [subF, hm] using (ih rest).cons₂ c
      | some n =>
        cases n with
        | zero =>
          simpa [subF, hm] using (ih rest).cons₂ c
        | succ k =>
          simp only [subF, hm, List.nil_append]
          exact ((ih (rest.drop k)).trans (List.drop_sublist k rest)).trans
            (List.sublist_cons_self c rest)

/-- The predicate `allSp` restricts to sublists. -/
theorem sublist_allSp {l₁ l₂ : List Char} (h : List.Sublist l₁ l₂)
    (ha : allSp l₂ = true) : allSp l₁ = true := by
  simp only [allSp, List.all_eq_true] at ha ⊢
  exact fun c hc => ha c (h.subset hc)

/-- The predicate `allSp` restricts along membership inclusion. -/
theorem subset_allSp {l₁ l₂ : List Char} (h : ∀ x ∈ l₁, x ∈ l₂)
    (ha : allSp l₂ = true) : allSp l₁ = true := by
  simp only [allSp, List.all_eq_true] at ha ⊢
  exact fun c hc => ha c (h c hc)

/-- The deletion passes of `clean_text` only remove characters. -/
theorem applyDeletions_sublist (s : List Char) :
    List.Sublist (applyDeletions s) s := by
  have key : ∀ (rules : List (List Char → Option Nat)) (t : List Char),
      List.Sublist (rules.foldl (fun u m => pysub m [] u) t) t := by
    intro rules
    induction rules with
    | nil => intro t; exact List.Sublist.refl t
    | cons m rules ih =>
      intro t
      exact (ih (pysub m [] t)).trans (subF_nil_sublist m t.length t)
  exact key deletionRules s

/-- Dropping the maximal `takeWhile` run is `dropWhile`. -/
theorem drop_takeWhile_length (p : Char → Bool) :
    ∀ l : List Char, l.drop (l.takeWhile p).length = l.dropWhile p := by
  intro l
  induction l with
  | nil => rfl
  | cons c rest ih =>
    by_cases h : p c = true
    · simp [List.takeWhile_cons, List.dropWhile_cons, h, ih]
    · simp [List.takeWhile_cons, List.dropWhile_cons, h]

/-- The head surviving `dropWhile` refutes the predicate. -/
theorem head_dropWhile_not (p : Char → Bool) :
    ∀ (l : List Char) (b : Char), (l.dropWhile p).head? = some b → p b = false := by
  intro l
  induction l with
  | nil => intro b h; cases h
  | cons c rest ih =>
    intro b h
    by_cases hc : p c = true
    · rw [List.dropWhile_cons, if_pos hc] at h
      exact ih b h
    · rw [List.dropWhile_cons, if_neg hc] at h
      have : c = b := by simpa using h
      subst this
      simpa using hc

/-- After the `\s+` collapse every whitespace character is a space. -/
theorem subF_ws1_allSp :
    ∀ (fuel : Nat) (s : List Char), s.length ≤ fuel →
      allSp (subF mWs1 [' '] fuel s) = true := by
  intro fuel
  induction fuel with
  | zero =>
    intro s hs
    have : s = [] := List.length_eq_zero.mp (Nat.le_zero.mp hs)
    subst this
    rfl
  | succ fuel ih =>
    intro s hs
    cases s with
    | nil => rfl
    | cons c rest =>
      have hrl : rest.length ≤ fuel := by
        simp only [List.length_cons] at hs
        omega
      cases hm : mWs1 (c :: rest) with
      | none =>
        have hc : isWs c = false := by
          by_contra hcc
          have hcc2 : isWs c = true := by simpa using hcc
          have : mWs1 (c :: rest) ≠ none := by
            simp [mWs1, List.takeWhile_cons, hcc2]
          exact this hm
        have : subF mWs1 [' '] (fuel + 1) (c :: rest) =
            c :: subF mWs1 [' '] fuel rest := by
          simp [subF, hm]
        rw [this]
        simp only [allSp, List.all_cons, Bool.and_eq_true]
        exact ⟨by simp [hc], ih rest hrl⟩
      | some n =>
        cases n with
        | zero =>
          exfalso
          have : ¬ mWs1 (c :: rest) = some 0 := by
            simp only [mWs1]
            split
            · simp
            · simp_all
          exact this hm
        | succ k =>
          have : subF mWs1 [' '] (fuel + 1) (c :: rest) =
              ' ' :: subF mWs1 [' '] fuel (rest.drop k) := by
            simp [subF, hm]
          rw [this]
          simp only [allSp, List.all_cons, Bool.and_eq_true]
          refine ⟨by simp [isWs], ?_⟩
          have : (rest.drop k).length ≤ fuel := by
            rw [List.length_drop]
            omega
          exact ih (rest.drop k) this

/-- Inversion for the `\s{2,}` matcher. -/
theorem mWs2_some {s : List Char} {n : Nat} (h : mWs2 s = some n) :
    n = (s.takeWhile isWs).length ∧ 2 ≤ n := by
  simp only [mWs2] at h
  split at h
  · cases h
    constructor
    · rfl
    · assumption
  · cases h

/-- Inversion for the `\s{2,}` matcher, failing case. -/
theorem mWs2_none {s : List Char} (h : mWs2 s = none) :
    (s.takeWhile isWs).length < 2 := by
  simp only [mWs2] at h
  split at h
  · cases h
  · omega

/-- The final `\s{2,}` collapse, on a space-normalised input, yields a
string with only single spaces as whitespace and preserves the head. -/
theorem subF_ws2_norm :
    ∀ (fuel : Nat) (s : List Char), s.length ≤ fuel → allSp s = true →
      allSp (subF mWs2 [' '] fuel s) = true ∧
      noAdjWs (subF mWs2 [' '] fuel s) = true ∧
      (subF mWs2 [' '] fuel s).head? = s.head? := by
  intro fuel
  induction fuel with
  | zero =>
    intro s hs ha
    have : s = [] := List.length_eq_zero.mp (Nat.le_zero.mp hs)
    subst this
    exact ⟨rfl, rfl, rfl⟩
  | succ fuel ih =>
    intro s hs ha
    cases s with
    | nil => exact ⟨rfl, rfl, rfl⟩
    | cons c rest =>
      have hrl : rest.length ≤ fuel := by
        simp only [List.length_cons] at hs
        omega
      have hca : (!isWs c || c == ' ') = true := by
        simp only [allSp, List.all_cons, Bool.and_eq_true] at ha
        exact ha.1
      have hra : allSp rest = true := by
        simp only [allSp, List.all_cons, Bool.and_eq_true] at ha
        exact ha.2
      cases hm : mWs2 (c :: rest) with
      | none =>
        have hstep : subF mWs2 [' '] (fuel + 1) (c :: rest) =
            c :: subF mWs2 [' '] fuel rest := by
          simp [subF, hm]
        obtain ⟨ha1, ha2, ha3⟩ := ih rest hrl hra
        rw [hstep]
        refine ⟨?_, ?_, rfl⟩
        · simp only [allSp, List.all_cons, Bool.and_eq_true]
          exact ⟨hca, ha1⟩
        · simp only [noAdjWs, ha3, Bool.and_eq_true]
          refine ⟨?_, ha2⟩
          cases hh : rest.head? with
          | none => simp
          | some b =>
            by_cases hw : isWs c = true
            · have hrun := mWs2_none hm
              rw [List.takeWhile_cons, if_pos hw] at hrun
              simp only [List.length_cons] at hrun
              have hrw : (rest.takeWhile isWs).length = 0 := by omega
              have hbw : isWs b = false := by
                cases rest with
                | nil => cases hh
                | cons x xs =>
                  have hx : x = b := by simpa using hh
                  subst hx
                  by_contra hxx
                  have hxx2 : isWs x = true := by simpa using hxx
                  rw [List.takeWhile_cons, if_pos hxx2] at hrw
                  simp at hrw
              simp [hbw]
            · have hw2 : isWs c = false := by simpa using hw
              simp [hw2]
      | some n =>
        obtain ⟨hn, h2n⟩ := mWs2_some hm
        have hw : isWs c = true := by
          by_contra hcc
          have hcc2 : isWs c = false := by simpa using hcc
          rw [List.takeWhile_cons, if_neg (by simp [hcc2])] at hn
          simp only [List.length_nil] at hn
          omega
        have hcsp : c = ' ' := by
          rcases Bool.or_eq_true_iff.mp hca with h | h
          · rw [hw] at h; cases h
          · simpa using h
        obtain ⟨k, rfl⟩ : ∃ k, n = k + 1 := ⟨n - 1, by omega⟩
        have hkr : k = (rest.takeWhile isWs).length := by
          rw [List.takeWhile_cons, if_pos hw] at hn
          simp only [List.length_cons] at hn
          omega
        have hstep : subF mWs2 [' '] (fuel + 1) (c :: rest) =
            ' ' :: subF mWs2 [' '] fuel (rest.drop k) := by
          simp [subF, hm]
        have hdw : rest.drop k = rest.dropWhile isWs := by
          rw [hkr]
          exact drop_takeWhile_length isWs rest
        have hdl : (rest.drop k).length ≤ fuel := by
          rw [List.length_drop]
          omega
        have hda : allSp (rest.drop k) = true :=
          sublist_allSp (List.drop_sublist k rest) hra
        obtain ⟨ha1, ha2, ha3⟩ := ih (rest.drop k) hdl hda
        rw [hstep]
        refine ⟨?_, ?_, by simp [hcsp]⟩
        · simp only [allSp, List.all_cons, Bool.and_eq_true]
          exact ⟨by simp [isWs], ha1⟩
        · simp only [noAdjWs, ha3, Bool.and_eq_true]
          refine ⟨?_, ha2⟩
          cases hh : (rest.drop k).head? with
          | none => simp
          | some b =>
            have hbw : isWs b = false := by
              apply head_dropWhile_not isWs rest b
              rw [← hdw]
              exact hh
            simp [hbw]

/-- The predicate `noAdjWs` passes to the tail. -/
theorem noAdjWs_tail {a : Char} {l : List Char} (h : noAdjWs (a :: l) = true) :
    noAdjWs l = true := by
  simp only [noAdjWs, Bool.and_eq_true] at h
  exact h.2

/-- Dropping a whitespace head run preserves `noAdjWs`. -/
theorem dropWhile_noAdjWs (p : Char → Bool) :
    ∀ l : List Char, noAdjWs l = true → noAdjWs (l.dropWhile p) = true := by
  intro l
  induction l with
  | nil => intro h; exact h
  | cons c rest ih =>
    intro h
    by_cases hc : p c = true
    · rw [List.dropWhile_cons, if_pos hc]
      exact ih (noAdjWs_tail h)
    · rw [List.dropWhile_cons, if_neg hc]
      exact h

/-- Trailing-whitespace removal only removes elements. -/
theorem dropTrailWs_subset : ∀ (l : List Char) (x : Char),
    x ∈ dropTrailWs l → x ∈ l := by
  intro l
  induction l with
  | nil => intro x h; cases h
  | cons c rest ih =>
    intro x h
    rw [dropTrailWs] at h
    split at h
    · cases h
    · rcases List.mem_cons.mp h with rfl | h2
      · exact List.mem_cons_self _ _
      · exact List.mem_cons_of_mem _ (ih x h2)

/-- Trailing-whitespace removal preserves the head when the result is nonempty. -/
theorem dropTrailWs_head : ∀ (l : List Char) (b : Char),
    (dropTrailWs l).head? = some b → l.head? = some b := by
  intro l b h
  cases l with
  | nil => cases h
  | cons c rest =>
    rw [dropTrailWs] at h
    split at h
    · cases h
    · simpa using h

/-- Trailing-whitespace removal preserves `noAdjWs`. -/
theorem dropTrailWs_noAdjWs : ∀ l : List Char,
    noAdjWs l = true → noAdjWs (dropTrailWs l) = true := by
  intro l
  induction l with
  | nil => intro h; exact h
  | cons c rest ih =>
    intro h
    rw [dropTrailWs]
    split
    · rfl
    · simp only [noAdjWs, Bool.and_eq_true]
      refine ⟨?_, ih (noAdjWs_tail h)⟩
      cases hh : (dropTrailWs rest).head? with
      | none => simp
      | some b =>
        have hrb : rest.head? = some b := dropTrailWs_head rest b hh
        simp only [noAdjWs, hrb, Bool.and_eq_true] at h
        simpa using h.1

/-- The last character surviving `dropTrailWs` is not whitespace. -/
theorem dropTrailWs_last : ∀ (l : List Char) (b : Char),
    (dropTrailWs l).getLast? = some b → isWs b = false := by
  intro l
  induction l with
  | nil => intro b h; cases h
  | cons c rest ih =>
    intro b h
    rw [dropTrailWs] at h
    split at h
    · cases h
    next hcond =>
      cases hd : dropTrailWs rest with
      | nil =>
        rw [hd] at h
        have hcb : c = b := by simpa using h
        subst hcb
        rw [hd] at hcond
        simpa using hcond
      | cons x xs =>
        rw [hd, List.getLast?_cons_cons] at h
        exact ih b (by rw [hd]; exact h)

/-! ## C10 -/

/-- C10: for every input, `clean_text` returns a whitespace-normalised
string — no leading or trailing whitespace, no two adjacent whitespace
characters, every whitespace character a single ASCII space — and cleans
the empty string to the empty string. -/
theorem c10_clean_text_ws_normalized :
    clean_text [] = [] ∧ ∀ s : List Char, wsNormalized (clean_text s) = true := by
  refine ⟨by decide, ?_⟩
  intro s
  unfold clean_text
  set t0 := pysub mTag [] s with ht0
  set t1 := pysub mWs1 [' '] t0 with ht1
  set t2 := pyStrip t1 with ht2
  set t3 := applyDeletions t2 with ht3
  set t4 := pysub mWs2 [' '] t3 with ht4
  have h1a : allSp t1 = true := subF_ws1_allSp t0.length t0 (Nat.le_refl _)
  have h2a : allSp t2 = true := by
    rw [ht2]
    unfold pyStrip
    apply subset_allSp (fun x hx => ?_) h1a
    exact (List.dropWhile_sublist _).subset (dropTrailWs_subset _ x hx)
  have h3a : allSp t3 = true := sublist_allSp (applyDeletions_sublist t2) h2a
  obtain ⟨h4a, h4n, _⟩ := subF_ws2_norm t3.length t3 (Nat.le_refl _) h3a
  set d1 := t4.dropWhile isWs with hd1
  have hd1a : allSp d1 = true := sublist_allSp (List.dropWhile_sublist _) h4a
  have hd1n : noAdjWs d1 = true := dropWhile_noAdjWs isWs t4 h4n
  have hout_a : allSp (dropTrailWs d1) = true :=
    subset_allSp (dropTrailWs_subset d1) hd1a
  have hout_n : noAdjWs (dropTrailWs d1) = true := dropTrailWs_noAdjWs d1 hd1n
  show wsNormalized (pyStrip t4) = true
  unfold pyStrip
  rw [← hd1]
  simp only [wsNormalized, Bool.and_eq_true]
  refine ⟨⟨⟨hout_a, hout_n⟩, ?_⟩, ?_⟩
  · cases hh : (dropTrailWs d1).head? with
    | none => simp
    | some b =>
      have hb : isWs b = false :=
        head_dropWhile_not isWs t4 b (dropTrailWs_head d1 b hh)
      simp [hb]
  · cases hh : (dropTrailWs d1).getLast? with
    | none => simp
    | some b =>
      have hb : isWs b = false := dropTrailWs_last d1 b hh
      simp [hb]

end Scraper
